import Mathlib

/-!
Verification of the computational core of SunC (src/SunC.py): conversion of
solar-position samples to sun-direction vectors, the panel-normal rotation
model, energy integration, the coarse-to-fine tilt grid search, and the
relative-efficiency percentage used by the visualization code.

Python floats are modelled as real numbers; pandas Series and DataFrames are
modelled as Lean lists processed in order.
-/

namespace SunC

/-- A Cartesian vector in the local East-North-Up frame
(x = east, y = north, z = up). -/
structure Vec3 where
  x : ℝ
  y : ℝ
  z : ℝ

/-- A 3x3 real matrix, row major: the `np.array` literals of
src/SunC.py lines 63-73. -/
structure Mat3 where
  a00 : ℝ
  a01 : ℝ
  a02 : ℝ
  a10 : ℝ
  a11 : ℝ
  a12 : ℝ
  a20 : ℝ
  a21 : ℝ
  a22 : ℝ

/-- Matrix-vector product, the `@` applications of src/SunC.py lines 75-76. -/
def Mat3.mulVec (M : Mat3) (v : Vec3) : Vec3 :=
  ⟨M.a00 * v.x + M.a01 * v.y + M.a02 * v.z,
   M.a10 * v.x + M.a11 * v.y + M.a12 * v.z,
   M.a20 * v.x + M.a21 * v.y + M.a22 * v.z⟩

/-- `np.radians`: degrees to radians (src/SunC.py lines 36-37 and 58-59). -/
noncomputable def radians (deg : ℝ) : ℝ := deg * (Real.pi / 180)

/-- One solar-position sample: timestamp, apparent zenith and azimuth in
degrees, and the clear-sky DNI (W/m²) attached to the same timestamp — the
per-row data used by src/SunC.py lines 30-48. -/
structure PositionSample where
  t : ℕ
  apparent_zenith : ℝ
  azimuth : ℝ
  dni : ℝ

/-- One row of `vectors_df` (src/SunC.py lines 43-48): timestamp,
sun-direction vector and DNI. -/
structure SunVec where
  t : ℕ
  v : Vec3
  dni : ℝ

/-- The per-sample trigonometric construction of src/SunC.py lines 36-47:
x = sin Z · sin A (east), y = sin Z · cos A (north), z = cos Z (up), after
converting the zenith Z and azimuth A from degrees to radians. -/
noncomputable def mkSunVec (s : PositionSample) : SunVec :=
  ⟨s.t,
   ⟨Real.sin (radians s.apparent_zenith) * Real.sin (radians s.azimuth),
    Real.sin (radians s.apparent_zenith) * Real.cos (radians s.azimuth),
    Real.cos (radians s.apparent_zenith)⟩,
   s.dni⟩

/-- src/SunC.py lines 14-54, `calculate_solar_vectors`, restricted to its
per-sample mathematical content: the rows whose clear-sky DNI strictly
exceeds 0 are kept (`clearsky['dni'] > 0`, lines 33-34) and the kept rows
are mapped to sun-direction vectors (lines 36-48).  The source performs no
validation of zenith or azimuth ranges and no emptiness check, so the
embedding is a total function on sample lists. -/
noncomputable def calculate_solar_vectors (samples : List PositionSample) : List SunVec :=
  (samples.filter (fun s => decide (0 < s.dni))).map mkSunVec

/-- The rotation matrix `Ry` of src/SunC.py lines 63-67 (rotation about the
north-south axis by the east-west tilt). -/
noncomputable def Ry_mat (θ : ℝ) : Mat3 :=
  ⟨Real.cos θ, 0, Real.sin θ,
   0, 1, 0,
   -Real.sin θ, 0, Real.cos θ⟩

/-- The rotation matrix `Rx` of src/SunC.py lines 69-73 (rotation about the
east-west axis by the north-south tilt). -/
noncomputable def Rx_mat (θ : ℝ) : Mat3 :=
  ⟨1, 0, 0,
   0, Real.cos θ, -Real.sin θ,
   0, Real.sin θ, Real.cos θ⟩

/-- src/SunC.py lines 56-78, `get_panel_normal`: start from the vertical
vector (0,0,1), apply `Ry` for the east-west tilt, then `Rx` for the
north-south tilt (lines 75-76), both angles converted to radians. -/
noncomputable def get_panel_normal (ew_tilt_deg ns_tilt_deg : ℝ) : Vec3 :=
  (Rx_mat (radians ns_tilt_deg)).mulVec
    ((Ry_mat (radians ew_tilt_deg)).mulVec ⟨0, 0, 1⟩)

/-- Modelled from the spec's words (section 4.2): Ry(θ) maps (x,y,z) to
(x cos θ + z sin θ, y, −x sin θ + z cos θ).  Used only to compare the
source rotation against the spec's stated map. -/
noncomputable def rotY_spec (θ : ℝ) (v : Vec3) : Vec3 :=
  ⟨v.x * Real.cos θ + v.z * Real.sin θ,
   v.y,
   -v.x * Real.sin θ + v.z * Real.cos θ⟩

/-- Modelled from the spec's words (section 4.2): Rx(θ) maps (x,y,z) to
(x, y cos θ − z sin θ, y sin θ + z cos θ).  Used only to compare the
source rotation against the spec's stated map. -/
noncomputable def rotX_spec (θ : ℝ) (v : Vec3) : Vec3 :=
  ⟨v.x,
   v.y * Real.cos θ - v.z * Real.sin θ,
   v.y * Real.sin θ + v.z * Real.cos θ⟩

/-- One row of an energy DataFrame (`enerji_wh` column with its index,
src/SunC.py line 93). -/
structure EnergySample where
  t : ℕ
  energy : ℝ

/-- `np.clip(x, lo, hi)` (src/SunC.py line 90). -/
noncomputable def clip (x lo hi : ℝ) : ℝ := min hi (max lo x)

/-- The row-wise dot product `np.dot(sun_vectors, panel_normal)`
(src/SunC.py line 90). -/
def dot3 (a b : Vec3) : ℝ := a.x * b.x + a.y * b.y + a.z * b.z

/-- `panel_area = 1.0` (src/SunC.py line 82). -/
def panel_area : ℝ := 1

/-- `time_interval = 1/6` hours, the 10-minute cadence (src/SunC.py line 83). -/
noncomputable def time_interval : ℝ := 1 / 6

/-- src/SunC.py lines 80-95, `calculate_energy`: the incidence cosine is the
constant 1 when either tilt argument is absent (`if ew_tilt_deg is None or
ns_tilt_deg is None`, line 85), otherwise the clipped dot product with the
panel normal; each row's energy is DNI · cosine · efficiency · area ·
interval (line 92). -/
noncomputable def calculate_energy (vecs : List SunVec) (panel_efficiency_decimal : ℝ)
    (ew_tilt_deg ns_tilt_deg : Option ℝ) : List EnergySample :=
  match ew_tilt_deg, ns_tilt_deg with
  | some e, some n =>
    vecs.map (fun w =>
      ⟨w.t,
       w.dni * clip (dot3 w.v (get_panel_normal e n)) 0 1 *
         panel_efficiency_decimal * panel_area * time_interval⟩)
  | _, _ =>
    vecs.map (fun w =>
      ⟨w.t, w.dni * 1 * panel_efficiency_decimal * panel_area * time_interval⟩)

/-- `energy_df['enerji_wh'].sum()` (src/SunC.py lines 107 and 119). -/
noncomputable def totalEnergy (vecs : List SunVec) (eff : ℝ) (ew ns : Option ℝ) : ℝ :=
  ((calculate_energy vecs eff ew ns).map EnergySample.energy).sum

/-- Total energy of a grid orientation (integer degrees, as produced by
`np.arange` in src/SunC.py lines 99, 113-114). -/
noncomputable def gridTotal (vecs : List SunVec) (eff : ℝ) (p : ℤ × ℤ) : ℝ :=
  totalEnergy vecs eff (some (p.1 : ℝ)) (some (p.2 : ℝ))

/-- `coarse_angles = np.arange(-90, 91, 5)` (src/SunC.py line 99). -/
def coarse_angles : List ℤ := (List.range 37).map (fun i => -90 + 5 * (i : ℤ))

/-- The row-major iteration order of the nested coarse loops (src/SunC.py
lines 104-105): outer loop over ew_tilt, inner loop over ns_tilt. -/
def coarsePairs : List (ℤ × ℤ) :=
  coarse_angles.flatMap (fun e => coarse_angles.map (fun n => (e, n)))

/-- The loop body of the grid search (src/SunC.py lines 106-111 and 118-123):
update the running (best_energy, best_ew_tilt, best_ns_tilt) state only when
`total_energy > best_energy` holds strictly. -/
noncomputable def stepBest (vecs : List SunVec) (eff : ℝ)
    (st : ℝ × ℤ × ℤ) (p : ℤ × ℤ) : ℝ × ℤ × ℤ :=
  if st.1 < gridTotal vecs eff p then (gridTotal vecs eff p, p) else st

/-- The state after the coarse phase, starting from
`best_energy = 0, best_ew_tilt = 0, best_ns_tilt = 0` (src/SunC.py
lines 100-111). -/
noncomputable def coarseState (vecs : List SunVec) (eff : ℝ) : ℝ × ℤ × ℤ :=
  coarsePairs.foldl (stepBest vecs eff) (0, 0, 0)

/-- `np.arange(max(-90, b-5), min(91, b+6), 1)` (src/SunC.py lines 113-114). -/
def fineRange (b : ℤ) : List ℤ :=
  (List.range (min 91 (b + 6) - max (-90) (b - 5)).toNat).map
    (fun i => max (-90) (b - 5) + (i : ℤ))

/-- The row-major iteration order of the nested fine loops (src/SunC.py
lines 116-117), built around a coarse best orientation. -/
def finePairs (b : ℤ × ℤ) : List (ℤ × ℤ) :=
  (fineRange b.1).flatMap (fun e => (fineRange b.2).map (fun n => (e, n)))

/-- The state after the fine phase, which continues from the coarse-phase
state (src/SunC.py lines 113-123). -/
noncomputable def fineState (vecs : List SunVec) (eff : ℝ) : ℝ × ℤ × ℤ :=
  (finePairs (coarseState vecs eff).2).foldl (stepBest vecs eff) (coarseState vecs eff)

/-- src/SunC.py lines 97-125, `find_best_fixed_position`: returns
`(best_ew_tilt, best_ns_tilt)` after both phases (line 125). -/
noncomputable def find_best_fixed_position (vecs : List SunVec) (eff : ℝ) : ℤ × ℤ :=
  (fineState vecs eff).2

/-- src/SunC.py lines 172-179, the efficiency bars of
`create_visualizations`: `(optimal_energy / tracking_energy) * 100`,
computed with no guard against a zero tracking-energy total.  Lean's real
division totalizes x / 0 to 0; the Python source would instead propagate a
division fault (NaN/inf or ZeroDivisionError). -/
noncomputable def relative_efficiency_percent (optimal_energy tracking_energy : ℝ) : ℝ :=
  optimal_energy / tracking_energy * 100

/-- Euclidean magnitude of a vector. -/
noncomputable def norm3 (v : Vec3) : ℝ := Real.sqrt (v.x ^ 2 + v.y ^ 2 + v.z ^ 2)

/-- A sample whose zenith exceeds 180 and whose azimuth exceeds 360, with
positive DNI: input used to exhibit the absence of range validation in
`calculate_solar_vectors`. -/
def badSample : PositionSample := ⟨0, 200, 400, 1⟩

/-- A single sun vector pointing at the west horizon with DNI 1: input used
to exercise the grid search at a concrete orientation. -/
def vWest : SunVec := ⟨0, ⟨-1, 0, 0⟩, 1⟩

/-! ## Helper lemmas -/

lemma get_panel_normal_components (e n : ℝ) :
    get_panel_normal e n =
      ⟨Real.sin (radians e),
       -(Real.cos (radians e) * Real.sin (radians n)),
       Real.cos (radians e) * Real.cos (radians n)⟩ := by
  simp only [get_panel_normal, Ry_mat, Rx_mat, Mat3.mulVec, Vec3.mk.injEq]
  refine ⟨by ring, by ring, by ring⟩

lemma norm3_get_panel_normal (e n : ℝ) : norm3 (get_panel_normal e n) = 1 := by
  rw [get_panel_normal_components]
  have h1 := Real.sin_sq_add_cos_sq (radians e)
  have h2 := Real.sin_sq_add_cos_sq (radians n)
  have harg : Real.sin (radians e) ^ 2 +
      (-(Real.cos (radians e) * Real.sin (radians n))) ^ 2 +
      (Real.cos (radians e) * Real.cos (radians n)) ^ 2 = 1 := by
    linear_combination h1 + Real.cos (radians e) ^ 2 * h2
  simp only [norm3]
  rw [harg, Real.sqrt_one]

lemma norm3_mkSunVec (s : PositionSample) : norm3 (mkSunVec s).v = 1 := by
  have hZ := Real.sin_sq_add_cos_sq (radians s.apparent_zenith)
  have hA := Real.sin_sq_add_cos_sq (radians s.azimuth)
  have harg : (Real.sin (radians s.apparent_zenith) * Real.sin (radians s.azimuth)) ^ 2 +
      (Real.sin (radians s.apparent_zenith) * Real.cos (radians s.azimuth)) ^ 2 +
      Real.cos (radians s.apparent_zenith) ^ 2 = 1 := by
    linear_combination Real.sin (radians s.apparent_zenith) ^ 2 * hA + hZ
  simp only [mkSunVec, norm3]
  rw [harg, Real.sqrt_one]

lemma calculate_solar_vectors_eq_filterMap (samples : List PositionSample) :
    calculate_solar_vectors samples =
      samples.filterMap (fun s => if 0 < s.dni then some (mkSunVec s) else none) := by
  induction samples with
  | nil => rfl
  | cons s rest ih =>
    by_cases h : 0 < s.dni <;>
      simp only [calculate_solar_vectors, List.filter_cons, List.filterMap_cons, h,
        if_true, if_false, decide_eq_true_eq, List.map_cons] at ih ⊢ <;>
      simp [h, ih]

/-! ## Claim theorems (geometry and projection) -/

/-- C1: `calculate_solar_vectors` retains a sample iff its clear-sky DNI
strictly exceeds 0, maps each retained sample to the sun-direction vector
(sin Z · sin A, sin Z · cos A, cos Z) in (east, north, up) order with Z and A
converted from degrees to radians, drops non-daylight samples entirely, and
keeps the input's relative order (output length ≤ input length). -/
theorem C1_vector_projection (samples : List PositionSample) :
    calculate_solar_vectors samples =
      samples.filterMap (fun s => if 0 < s.dni then some (mkSunVec s) else none) ∧
    (calculate_solar_vectors samples).length ≤ samples.length ∧
    ∀ s : PositionSample,
      (mkSunVec s).v =
        ⟨Real.sin (s.apparent_zenith * (Real.pi / 180)) *
           Real.sin (s.azimuth * (Real.pi / 180)),
         Real.sin (s.apparent_zenith * (Real.pi / 180)) *
           Real.cos (s.azimuth * (Real.pi / 180)),
         Real.cos (s.apparent_zenith * (Real.pi / 180))⟩ := by
  refine ⟨calculate_solar_vectors_eq_filterMap samples, ?_, fun s => rfl⟩
  simp only [calculate_solar_vectors, List.length_map]
  exact List.length_filter_le _ _

/-- C3: `get_panel_normal` applies to the vertical vector (0,0,1) first the
rotation Ry(ew_tilt) about the north-south axis and then Rx(ns_tilt) about
the east-west axis, exactly in the order and with the component maps stated
by the spec, and `get_panel_normal 0 0 = (0,0,1)` exactly. -/
theorem C3_rotation_order (ew ns : ℝ) :
    get_panel_normal ew ns = rotX_spec (radians ns) (rotY_spec (radians ew) ⟨0, 0, 1⟩) ∧
    get_panel_normal 0 0 = ⟨0, 0, 1⟩ := by
  constructor
  · simp only [get_panel_normal, Ry_mat, Rx_mat, Mat3.mulVec, rotX_spec, rotY_spec,
      Vec3.mk.injEq]
    refine ⟨by ring, by ring, by ring⟩
  · rw [get_panel_normal_components]
    simp [radians]

/-- C5 counterexample: `calculate_solar_vectors` performs no input
validation.  On the empty sequence it returns the empty output instead of
failing, and a sample with zenith 200 (outside [0,180]) and azimuth 400
(outside [0,360]) is processed like any other daylight sample; no
`InvalidInput` failure path exists in the code. -/
theorem C5_counterexample :
    (180 : ℝ) < badSample.apparent_zenith ∧ (360 : ℝ) < badSample.azimuth ∧
    calculate_solar_vectors [] = [] ∧
    calculate_solar_vectors [badSample] = [mkSunVec badSample] := by
  refine ⟨by norm_num [badSample], by norm_num [badSample], rfl, ?_⟩
  have h : (0 : ℝ) < badSample.dni := by norm_num [badSample]
  simp [calculate_solar_vectors, List.filter_cons, h]

/-- C5 (amended): `calculate_solar_vectors` performs no validation at all:
it is a total function that never fails, the empty sequence yields the
empty output, and every sample — including samples whose zenith or azimuth
lies outside [0,180]/[0,360] — is simply kept or dropped according to the
daylight test `0 < dni`; the embedding is a pure function (no side
effects). -/
theorem C5_amended_total_no_validation (s : PositionSample) (rest : List PositionSample) :
    calculate_solar_vectors [] = [] ∧
    calculate_solar_vectors (s :: rest) =
      (if 0 < s.dni then [mkSunVec s] else []) ++ calculate_solar_vectors rest := by
  refine ⟨rfl, ?_⟩
  by_cases h : 0 < s.dni <;> simp [calculate_solar_vectors, List.filter_cons, h]

/-- C8: for valid zenith/azimuth the produced sun vector has Euclidean
magnitude within 1e-6 of 1 (in the real-number model it is exactly 1), and
for tilts in [−90,90] the panel normal likewise has magnitude within 1e-6
of 1. -/
theorem C8_unit_magnitudes (s : PositionSample) (ew ns : ℝ)
    (hz : 0 ≤ s.apparent_zenith ∧ s.apparent_zenith ≤ 180)
    (ha : 0 ≤ s.azimuth ∧ s.azimuth ≤ 360)
    (hew : -90 ≤ ew ∧ ew ≤ 90) (hns : -90 ≤ ns ∧ ns ≤ 90) :
    |norm3 (mkSunVec s).v - 1| ≤ 1 / 1000000 ∧
    |norm3 (get_panel_normal ew ns) - 1| ≤ 1 / 1000000 := by
  rw [norm3_mkSunVec, norm3_get_panel_normal]
  norm_num

theorem C8_unit_magnitudes_witness :
    ((0 : ℝ) ≤ 0 ∧ (0 : ℝ) ≤ 180) ∧
    |norm3 (mkSunVec ⟨0, 0, 0, 0⟩).v - 1| ≤ 1 / 1000000 ∧
    |norm3 (get_panel_normal 0 0) - 1| ≤ 1 / 1000000 := by
  refine ⟨by norm_num, ?_⟩
  exact C8_unit_magnitudes ⟨0, 0, 0, 0⟩ 0 0 (by norm_num) (by norm_num)
    (by norm_num) (by norm_num)

/-- C10: `get_panel_normal` is total over all real tilt pairs — the Lean
embedding is a total function, mirroring that the Python code raises for no
input — and for every input, including angles outside [−90,90], the
returned vector has magnitude exactly 1 in the real-number model, hence
within any floating-point tolerance of 1. -/
theorem C10_normal_total_unit (ew ns : ℝ) :
    norm3 (get_panel_normal ew ns) = 1 ∧
    |norm3 (get_panel_normal ew ns) - 1| ≤ 1 / 1000000 := by
  rw [norm3_get_panel_normal]
  norm_num

/-! ## Energy lemmas -/

lemma clip_le_right (x lo hi : ℝ) : clip x lo hi ≤ hi := min_le_left _ _

lemma clip_nonneg (x hi : ℝ) (h : 0 ≤ hi) : 0 ≤ clip x 0 hi :=
  le_min h (le_max_left 0 x)

lemma calculate_energy_nil (eff : ℝ) (ew ns : Option ℝ) :
    calculate_energy [] eff ew ns = [] := by
  cases ew <;> cases ns <;> rfl

lemma totalEnergy_nil (eff : ℝ) (ew ns : Option ℝ) :
    totalEnergy [] eff ew ns = 0 := by
  simp [totalEnergy, calculate_energy_nil]

lemma totalEnergy_cons_track (w : SunVec) (t : List SunVec) (eff : ℝ) :
    totalEnergy (w :: t) eff none none =
      w.dni * 1 * eff * panel_area * time_interval + totalEnergy t eff none none := by
  simp [totalEnergy, calculate_energy]

lemma totalEnergy_cons_fixed (w : SunVec) (t : List SunVec) (eff e n : ℝ) :
    totalEnergy (w :: t) eff (some e) (some n) =
      w.dni * clip (dot3 w.v (get_panel_normal e n)) 0 1 * eff * panel_area * time_interval +
        totalEnergy t eff (some e) (some n) := by
  simp [totalEnergy, calculate_energy]

/-! ## Claim theorems (energy integration) -/

/-- C2: `calculate_energy` returns exactly one energy sample per input sun
vector, in order and with the input's timestamp; the energy is
DNI · cosine · efficiency · area(1 m²) · (1/6 h), where the cosine is 1 in
tracking mode (both tilts absent) and otherwise the dot product with the
panel normal clipped to [0,1]; when the efficiency lies in (0,1] and every
DNI is non-negative, every output energy is ≥ 0. -/
theorem C2_energy_integration (vecs : List SunVec) (eff : ℝ)
    (heff : 0 < eff ∧ eff ≤ 1) (hdni : ∀ w ∈ vecs, 0 ≤ w.dni) :
    panel_area = 1 ∧ time_interval = 1 / 6 ∧
    calculate_energy vecs eff none none =
      vecs.map (fun w => ⟨w.t, w.dni * 1 * eff * panel_area * time_interval⟩) ∧
    (∀ e n : ℝ, calculate_energy vecs eff (some e) (some n) =
      vecs.map (fun w =>
        ⟨w.t, w.dni * clip (dot3 w.v (get_panel_normal e n)) 0 1 * eff *
          panel_area * time_interval⟩)) ∧
    (∀ ew ns : Option ℝ, (calculate_energy vecs eff ew ns).length = vecs.length) ∧
    ∀ (ew ns : Option ℝ), ∀ es ∈ calculate_energy vecs eff ew ns, 0 ≤ es.energy := by
  refine ⟨rfl, rfl, rfl, fun e n => rfl, ?_, ?_⟩
  · intro ew ns
    cases ew <;> cases ns <;> simp [calculate_energy]
  · intro ew ns es hes
    have harea : (0 : ℝ) ≤ panel_area := by norm_num [panel_area]
    have htime : (0 : ℝ) ≤ time_interval := by norm_num [time_interval]
    have hkey : ∀ w ∈ vecs, ∀ c : ℝ, 0 ≤ c →
        0 ≤ w.dni * c * eff * panel_area * time_interval := by
      intro w hw c hc
      have hd := hdni w hw
      exact mul_nonneg (mul_nonneg (mul_nonneg (mul_nonneg hd hc) heff.1.le) harea) htime
    cases ew with
    | none =>
      cases ns with
      | none =>
        simp only [calculate_energy, List.mem_map] at hes
        obtain ⟨w, hw, rfl⟩ := hes
        exact hkey w hw 1 (by norm_num)
      | some n =>
        simp only [calculate_energy, List.mem_map] at hes
        obtain ⟨w, hw, rfl⟩ := hes
        exact hkey w hw 1 (by norm_num)
    | some e =>
      cases ns with
      | none =>
        simp only [calculate_energy, List.mem_map] at hes
        obtain ⟨w, hw, rfl⟩ := hes
        exact hkey w hw 1 (by norm_num)
      | some n =>
        simp only [calculate_energy, List.mem_map] at hes
        obtain ⟨w, hw, rfl⟩ := hes
        exact hkey w hw _ (clip_nonneg _ _ (by norm_num))

theorem C2_energy_integration_witness :
    (0 < (1 / 5 : ℝ) ∧ (1 / 5 : ℝ) ≤ 1) ∧
    calculate_energy [vWest] (1 / 5) none none =
      [⟨vWest.t, vWest.dni * 1 * (1 / 5) * panel_area * time_interval⟩] := by
  refine ⟨⟨by norm_num, by norm_num⟩, ?_⟩
  have h := (C2_energy_integration [vWest] (1 / 5) ⟨by norm_num, by norm_num⟩
    (by intro w hw; rw [List.mem_singleton] at hw; subst hw; norm_num [vWest])).2.2.1
  simpa using h

/-- C6: for any sun-vector sequence with non-negative DNI values and any
non-negative efficiency, the tracking-mode total energy is at least the
total energy of every fixed orientation, because the clipped incidence
cosine never exceeds the tracking cosine of 1. -/
theorem C6_tracking_dominates (vecs : List SunVec) (eff : ℝ) (e n : ℝ)
    (heff : 0 ≤ eff) (hdni : ∀ w ∈ vecs, 0 ≤ w.dni) :
    totalEnergy vecs eff (some e) (some n) ≤ totalEnergy vecs eff none none := by
  induction vecs with
  | nil => simp [totalEnergy_nil]
  | cons w t ih =>
    rw [totalEnergy_cons_fixed, totalEnergy_cons_track]
    have hd : 0 ≤ w.dni := hdni w (List.mem_cons_self w t)
    have hrest : totalEnergy t eff (some e) (some n) ≤ totalEnergy t eff none none :=
      ih (fun u hu => hdni u (List.mem_cons_of_mem w hu))
    have hcle : clip (dot3 w.v (get_panel_normal e n)) 0 1 ≤ 1 := clip_le_right _ _ _
    have hterm : w.dni * clip (dot3 w.v (get_panel_normal e n)) 0 1 * eff *
        panel_area * time_interval ≤ w.dni * 1 * eff * panel_area * time_interval := by
      have h1 : 0 ≤ w.dni * eff * panel_area * time_interval := by
        have harea : (0 : ℝ) ≤ panel_area := by norm_num [panel_area]
        have htime : (0 : ℝ) ≤ time_interval := by norm_num [time_interval]
        positivity
      nlinarith [mul_le_mul_of_nonneg_left hcle h1]
    linarith

theorem C6_tracking_dominates_witness :
    (0 : ℝ) ≤ 1 ∧
    totalEnergy [vWest] 1 (some 0) (some 0) ≤ totalEnergy [vWest] 1 none none := by
  refine ⟨by norm_num, ?_⟩
  exact C6_tracking_dominates [vWest] 1 0 0 (by norm_num)
    (by intro w hw; rw [List.mem_singleton] at hw; subst hw; norm_num [vWest])

/-! ## Grid-search fold lemmas -/

lemma stepBest_of_le (vecs : List SunVec) (eff : ℝ) (st : ℝ × ℤ × ℤ) (p : ℤ × ℤ)
    (h : gridTotal vecs eff p ≤ st.1) : stepBest vecs eff st p = st := by
  simp [stepBest, not_lt.2 h]

lemma foldl_stepBest_no_update (vecs : List SunVec) (eff : ℝ) (l : List (ℤ × ℤ))
    (st : ℝ × ℤ × ℤ) (h : ∀ p ∈ l, gridTotal vecs eff p ≤ st.1) :
    l.foldl (stepBest vecs eff) st = st := by
  induction l with
  | nil => rfl
  | cons p t ih =>
    rw [List.foldl_cons, stepBest_of_le vecs eff st p (h p (List.mem_cons_self p t))]
    exact ih fun q hq => h q (List.mem_cons_of_mem p hq)

lemma foldl_stepBest_fst_le (vecs : List SunVec) (eff : ℝ) (l : List (ℤ × ℤ)) :
    ∀ st : ℝ × ℤ × ℤ, st.1 ≤ (l.foldl (stepBest vecs eff) st).1 := by
  induction l with
  | nil => intro st; exact le_refl _
  | cons p t ih =>
    intro st
    rw [List.foldl_cons]
    refine le_trans ?_ (ih (stepBest vecs eff st p))
    by_cases h : st.1 < gridTotal vecs eff p
    · simp [stepBest, h]
      exact h.le
    · simp [stepBest, h]

lemma foldl_stepBest_cases (vecs : List SunVec) (eff : ℝ) (l : List (ℤ × ℤ)) :
    ∀ st : ℝ × ℤ × ℤ, l.foldl (stepBest vecs eff) st = st ∨
      ((l.foldl (stepBest vecs eff) st).2 ∈ l ∧
        (l.foldl (stepBest vecs eff) st).1 =
          gridTotal vecs eff (l.foldl (stepBest vecs eff) st).2 ∧
        st.1 < (l.foldl (stepBest vecs eff) st).1) := by
  induction l with
  | nil => intro st; exact Or.inl rfl
  | cons p t ih =>
    intro st
    rw [List.foldl_cons]
    by_cases h : st.1 < gridTotal vecs eff p
    · right
      have hstep : stepBest vecs eff st p = (gridTotal vecs eff p, p) := by
        simp [stepBest, h]
      rw [hstep]
      rcases ih (gridTotal vecs eff p, p) with heq | ⟨hmem, hval, hlt⟩
      · rw [heq]
        exact ⟨List.mem_cons_self p t, rfl, h⟩
      · exact ⟨List.mem_cons_of_mem p hmem, hval, lt_trans h hlt⟩
    · have hstep : stepBest vecs eff st p = st := by simp [stepBest, h]
      rw [hstep]
      rcases ih st with heq | ⟨hmem, hval, hlt⟩
      · exact Or.inl heq
      · exact Or.inr ⟨List.mem_cons_of_mem p hmem, hval, hlt⟩

lemma foldl_stepBest_first_max (vecs : List SunVec) (eff : ℝ) (p : ℤ × ℤ) :
    ∀ (l₁ l₂ : List (ℤ × ℤ)) (st : ℝ × ℤ × ℤ),
      (∀ q ∈ l₁, gridTotal vecs eff q < gridTotal vecs eff p) →
      (∀ q ∈ l₂, gridTotal vecs eff q ≤ gridTotal vecs eff p) →
      st.1 < gridTotal vecs eff p →
      (l₁ ++ p :: l₂).foldl (stepBest vecs eff) st = (gridTotal vecs eff p, p) := by
  intro l₁
  induction l₁ with
  | nil =>
    intro l₂ st hfirst hmax hst
    rw [List.nil_append, List.foldl_cons]
    have hstep : stepBest vecs eff st p = (gridTotal vecs eff p, p) := by
      simp [stepBest, hst]
    rw [hstep]
    exact foldl_stepBest_no_update vecs eff l₂ _ hmax
  | cons q t ih =>
    intro l₂ st hfirst hmax hst
    rw [List.cons_append, List.foldl_cons]
    have hq : gridTotal vecs eff q < gridTotal vecs eff p :=
      hfirst q (List.mem_cons_self q t)
    by_cases h : st.1 < gridTotal vecs eff q
    · have hstep : stepBest vecs eff st q = (gridTotal vecs eff q, q) := by
        simp [stepBest, h]
      rw [hstep]
      exact ih l₂ _ (fun u hu => hfirst u (List.mem_cons_of_mem q hu)) hmax hq
    · have hstep : stepBest vecs eff st q = st := by simp [stepBest, h]
      rw [hstep]
      exact ih l₂ st (fun u hu => hfirst u (List.mem_cons_of_mem q hu)) hmax hst

lemma coarseState_nil (eff : ℝ) : coarseState [] eff = (0, 0, 0) := by
  refine foldl_stepBest_no_update [] eff coarsePairs (0, 0, 0) ?_
  intro p _
  simp [gridTotal, totalEnergy_nil]

lemma fineState_nil (eff : ℝ) : fineState [] eff = (0, 0, 0) := by
  rw [fineState, coarseState_nil]
  refine foldl_stepBest_no_update [] eff _ _ ?_
  intro p _
  simp [gridTotal, totalEnergy_nil]

/-! ## Claim theorems (grid search) -/

/-- C7: on an empty sun-vector sequence every evaluated orientation's total
energy is 0, `find_best_fixed_position` completes without any failure (the
embedding is total) and its full final state is best energy 0 with tilts
(0,0), so the returned orientation is (0,0) — a valid outcome, not an
error. -/
theorem C7_empty_input (eff : ℝ) :
    (∀ p : ℤ × ℤ, gridTotal [] eff p = 0) ∧
    totalEnergy [] eff none none = 0 ∧
    fineState [] eff = (0, 0, 0) ∧
    find_best_fixed_position [] eff = (0, 0) := by
  refine ⟨fun p => by simp [gridTotal, totalEnergy_nil], totalEnergy_nil eff none none,
    fineState_nil eff, ?_⟩
  rw [find_best_fixed_position, fineState_nil]

lemma gridTotal_singleton (w : SunVec) (eff : ℝ) (p : ℤ × ℤ) :
    gridTotal [w] eff p =
      w.dni * clip (dot3 w.v (get_panel_normal (p.1 : ℝ) (p.2 : ℝ))) 0 1 * eff *
        panel_area * time_interval := by
  simp [gridTotal, totalEnergy, calculate_energy]

lemma vWest_total_le (q : ℤ × ℤ) : gridTotal [vWest] 1 q ≤ 1 / 6 := by
  rw [gridTotal_singleton]
  simp only [vWest, panel_area, time_interval]
  have h := clip_le_right (dot3 ⟨-1, 0, 0⟩ (get_panel_normal (q.1 : ℝ) (q.2 : ℝ))) 0 1
  nlinarith [h]

lemma vWest_total_first : gridTotal [vWest] 1 (-90, -90) = 1 / 6 := by
  rw [gridTotal_singleton, get_panel_normal_components]
  have hrad : radians (((-90 : ℤ) : ℝ)) = -(Real.pi / 2) := by
    rw [radians]; push_cast; ring
  simp only [vWest, dot3]
  rw [hrad, Real.sin_neg, Real.sin_pi_div_two]
  norm_num [clip, panel_area, time_interval]

/-- C4 (amended): the coarse-phase running best starts at 0 and is updated
only under strict greater-than while iterating row-major over the coarse
grid; a later total that merely equals the running best never replaces it;
consequently, when the maximal coarse total is strictly positive and is
first attained at orientation p (all earlier orientations scoring strictly
less), the coarse phase ends exactly at p, and the optimizer returns p
unless the fine phase finds a strictly larger total. -/
theorem C4_first_wins (vecs : List SunVec) (eff : ℝ) (p : ℤ × ℤ)
    (l₁ l₂ : List (ℤ × ℤ))
    (hsplit : coarsePairs = l₁ ++ p :: l₂)
    (hfirst : ∀ q ∈ l₁, gridTotal vecs eff q < gridTotal vecs eff p)
    (hmax : ∀ q ∈ coarsePairs, gridTotal vecs eff q ≤ gridTotal vecs eff p)
    (hpos : 0 < gridTotal vecs eff p) :
    coarseState vecs eff = (gridTotal vecs eff p, p) ∧
    (∀ (st : ℝ × ℤ × ℤ) (q : ℤ × ℤ), gridTotal vecs eff q ≤ st.1 →
      stepBest vecs eff st q = st) ∧
    (find_best_fixed_position vecs eff = p ∨
      gridTotal vecs eff p < gridTotal vecs eff (find_best_fixed_position vecs eff)) := by
  have hcoarse : coarseState vecs eff = (gridTotal vecs eff p, p) := by
    rw [coarseState, hsplit]
    refine foldl_stepBest_first_max vecs eff p l₁ l₂ (0, 0, 0) hfirst ?_ hpos
    intro q hq
    refine hmax q ?_
    rw [hsplit]
    exact List.mem_append_right _ (List.mem_cons_of_mem p hq)
  refine ⟨hcoarse, fun st q h => stepBest_of_le vecs eff st q h, ?_⟩
  have hcases : fineState vecs eff = coarseState vecs eff ∨
      ((fineState vecs eff).2 ∈ finePairs (coarseState vecs eff).2 ∧
        (fineState vecs eff).1 = gridTotal vecs eff (fineState vecs eff).2 ∧
        (coarseState vecs eff).1 < (fineState vecs eff).1) :=
    foldl_stepBest_cases vecs eff (finePairs (coarseState vecs eff).2) (coarseState vecs eff)
  rcases hcases with heq | ⟨_, hval, hlt⟩
  · left
    rw [find_best_fixed_position, heq, hcoarse]
  · right
    rw [hcoarse] at hlt
    rw [find_best_fixed_position, ← hval]
    exact hlt

theorem C4_first_wins_witness :
    (0 : ℝ) < gridTotal [vWest] 1 (-90, -90) ∧
    coarseState [vWest] 1 = (gridTotal [vWest] 1 (-90, -90), (-90, -90)) ∧
    (find_best_fixed_position [vWest] 1 = (-90, -90) ∨
      gridTotal [vWest] 1 (-90, -90) <
        gridTotal [vWest] 1 (find_best_fixed_position [vWest] 1)) := by
  have hpos : (0 : ℝ) < gridTotal [vWest] 1 (-90, -90) := by
    rw [vWest_total_first]; norm_num
  have hsplit : coarsePairs = [] ++ (-90, -90) :: coarsePairs.tail := rfl
  have hmain := C4_first_wins [vWest] 1 (-90, -90) [] coarsePairs.tail hsplit
    (by intro q hq; simp at hq)
    (by intro q _; rw [vWest_total_first]; exact vWest_total_le q)
    hpos
  exact ⟨hpos, hmain.1, hmain.2.2⟩

/-- C4 counterexample: on the empty input sequence every coarse-grid
orientation has total energy 0, so two distinct coarse orientations —
(−90,−90) and (−90,−85) — attain exactly equal maximal totals and
(−90,−90) is the first pair in row-major order; yet the optimizer returns
(0,0), not (−90,−90), because the running best starts at 0 and a total
merely equal to it never updates the state.  The claim's conclusion
therefore fails as stated. -/
theorem C4_counterexample :
    ((-90, -90) : ℤ × ℤ) ≠ (-90, -85) ∧
    ((-90, -90) : ℤ × ℤ) ∈ coarsePairs ∧ ((-90, -85) : ℤ × ℤ) ∈ coarsePairs ∧
    gridTotal [] 1 (-90, -90) = gridTotal [] 1 (-90, -85) ∧
    (∀ q ∈ coarsePairs, gridTotal [] 1 q ≤ gridTotal [] 1 (-90, -90)) ∧
    coarsePairs.head? = some (-90, -90) ∧
    find_best_fixed_position [] 1 = (0, 0) ∧
    ((0, 0) : ℤ × ℤ) ≠ (-90, -90) := by
  refine ⟨by decide, by decide, by decide,
    by simp [gridTotal, totalEnergy_nil],
    ?_, rfl, ?_, by decide⟩
  · intro q _
    simp [gridTotal, totalEnergy_nil]
  · rw [find_best_fixed_position, fineState_nil]

/-- C9 (on the code bug): the efficiency-percentage computation of
`create_visualizations` divides by the tracking-energy total with no guard
against a zero divisor: at tracking total 0 the division is still
performed — totalized to 0 by Lean's real division, a NaN/ZeroDivision
fault in the Python source — and no DegenerateResult reporting exists in
the code. -/
theorem C9_unguarded_zero_division (optimal : ℝ) :
    relative_efficiency_percent optimal 0 = 0 := by
  simp [relative_efficiency_percent]

end SunC
